import Mathlib

/-!
Verification development for the SOM stochastic reduction-propagation engine
(repository `protect_baltic`).  The Python sources are shallowly embedded:

* floats become exact rationals (`ℚ`);
* integer identifiers become `ℤ`;
* `np.nan` missing markers become `Option` (or an explicit constructor where
  the distinction between `None` and `nan` matters);
* random draws (Beta samples, `np.random.choice`) are parameterised by
  explicit oracle arguments, so every definition is a computable function of
  its inputs and its random source;
* pandas DataFrames become lists of records, and the two level tables of
  `build_changes` (rows = entity ids, one column per area) become functions
  `ℤ → ℤ → ℚ` updated pointwise.

Each definition cites the source lines it embeds (from
`src/protect_baltic/src/som_tools.py`, `som/som_app.py`, `utilities.py`,
`__main__.py`).
-/

namespace SOM

/-! ## Data model (spec §3, built by `som_tools.py` readers) -/

/-- A row of the Measure-Activity-Pressure-State reduction table produced by
`build_links` (`som_app.py` 130-152): the sampled `reduction` replaces the
`probability` distribution column. -/
structure Link where
  measure : ℤ
  activity : ℤ
  pressure : ℤ
  state : ℤ
  reduction : ℚ
deriving DecidableEq, Repr

/-- A case row as consumed and produced by `build_cases` (`som_app.py`
196-233).  Before expansion the `activity`/`pressure`/`state` fields may hold
the wildcard `0`; after expansion they are concrete ids. -/
structure CaseRow where
  measure : ℤ
  activity : ℤ
  pressure : ℤ
  state : ℤ
  area_id : ℤ
  coverage : ℚ
  implementation : ℚ
deriving DecidableEq, Repr

/-- A row of `data['activity_contributions']` (`som_tools.py`
`read_activity_contributions`, relevant columns `Activity`, `Pressure`,
`area_id`, `value`). -/
structure ActContrib where
  activity : ℤ
  pressure : ℤ
  area_id : ℤ
  value : ℚ
deriving DecidableEq, Repr

/-- A row of `data['pressure_contributions']` (columns `pressure`, `State`,
`area_id`, `average`). -/
structure PressContrib where
  pressure : ℤ
  state : ℤ
  area_id : ℤ
  average : ℚ
deriving DecidableEq, Repr

/-- A row of `data['overlaps']` (`som_tools.py` `read_overlaps`, columns
`Overlapping`, `Overlapped`, `Pressure`, `Activity`, `Multiplier`). -/
structure OverlapRow where
  overlapping : ℤ
  overlapped : ℤ
  pressure : ℤ
  activity : ℤ
  multiplier : ℚ
deriving DecidableEq, Repr

/-- A row of `data['subpressures']` (`som_tools.py` `read_subpressures`,
columns `State`, `State pressure`, `Reduced pressure`, `Multiplier`). -/
structure SubpressureRow where
  state : ℤ
  statePressure : ℤ
  reducedPressure : ℤ
  multiplier : ℚ
deriving DecidableEq, Repr

/-! ## Distribution synthesis (`som_tools.py` 699-801) -/

/-- `pandas.Series.unique()`: distinct values in order of first appearance. -/
def uniqueKeepFirst (l : List ℤ) : List ℤ :=
  l.foldl (fun acc x => if x ∈ acc then acc else acc ++ [x]) []

/-- `np.sort` applied to a three-element row `[low, expected, upper]`
(`get_prob_dist`, `som_tools.py` 734-741): the sorted rearrangement of the
three values. -/
def sort3 (a b c : ℚ) : ℚ × ℚ × ℚ :=
  if a ≤ b then
    if b ≤ c then (a, b, c)
    else if a ≤ c then (a, c, b)
    else (c, a, b)
  else
    if a ≤ c then (b, a, c)
    else if b ≤ c then (b, c, a)
    else (c, b, a)

/-- `np.round` to an integer: round half to even (banker's rounding), as
used by `np.round(picks, decimals=2)` after scaling by 100. -/
def roundHalfEven (q : ℚ) : ℤ :=
  let f := ⌊q⌋
  let r := q - (f : ℚ)
  if r < 1/2 then f
  else if 1/2 < r then f + 1
  else if f % 2 = 0 then f else f + 1

/-- `np.round(x, decimals=2)`: snap to the nearest multiple of `1/100`,
ties to even (`get_dist_from_picks`, `som_tools.py` 792). -/
def round2 (x : ℚ) : ℚ := (roundHalfEven (x * 100) : ℚ) / 100

/-- The PERT shape parameter `alpha = 1 + gamma * (peak - low) / (high - low)`
with `gamma = 4` (`pert_dist`, `som_tools.py` 705-711). -/
def pertAlpha (peak low high : ℚ) : ℚ := 1 + 4 * (peak - low) / (high - low)

/-- The PERT shape parameter `beta = 1 + gamma * (high - peak) / (high - low)`
with `gamma = 4` (`pert_dist`, `som_tools.py` 712). -/
def pertBeta (peak low high : ℚ) : ℚ := 1 + 4 * (high - peak) / (high - low)

/-- `pert_dist(peak, low, high, size)` (`som_tools.py` 699-713).  The Beta
samples of `np.random.default_rng().beta` are supplied by the oracle
`betaDraw` (a Beta sample always lies in `[0, 1]`); sample `j` of the
non-constant branch is `low + betaDraw j * (high - low)`. -/
def pert_dist (peak low high : ℚ) (size : ℕ) (betaDraw : ℕ → ℚ) : List ℚ :=
  if low = high ∧ low = peak then List.replicate size peak
  else (List.range size).map (fun j => low + betaDraw j * (high - low))

/-- `get_dist_from_picks(picks)` (`som_tools.py` 788-801): round each pick to
2 decimals, count how many picks equal `i/100` for each `i < 101`, and
normalise the counts by their sum.  (The source's `np.unique` plus the double
loop computes exactly the per-bucket frequency of the value `i/100`.) -/
def get_dist_from_picks (picks : List ℚ) : List ℚ :=
  let rounded := picks.map round2
  let counts := (List.range 101).map
    (fun (i : ℕ) => ((rounded.countP (fun x => decide (x = (i : ℚ) / 100))) : ℚ))
  let total := counts.sum
  counts.map (fun c => c / total)

/-- One expert's survey answer: `expected`/`lower`/`upper` are `np.nan` when
missing (modelled as `none`), `weight` is the expert weight (an integer in
the ingested data, never `nan`). -/
structure Expert where
  expected : Option ℚ
  lower : Option ℚ
  upper : Option ℚ
  weight : ℚ
deriving DecidableEq, Repr

/-- The per-expert triple after the row-wise `np.sort` of
`[lower, expected, upper]` (`get_prob_dist`, `som_tools.py` 734-741),
or `none` when any of the three values is `nan`.  In the source a `nan`
sorts to the end of the row, so whenever any entry is `nan` the re-read
`upper` is `nan` and the `non_nan` mask at line 744 skips the expert; hence
modelling "any missing → skip" before the sort is behaviourally identical. -/
def expertTriple (e : Expert) : Option (ℚ × ℚ × ℚ) :=
  match e.lower, e.expected, e.upper with
  | some l, some ex, some u => some (sort3 l ex u)
  | _, _, _ => none

/-- `int(w * number_of_picks)` with `number_of_picks = 5000`
(`som_tools.py` 751, 760): Python `int()` truncates; for the nonnegative
weights of the ingested surveys this is the floor.  (For a negative product
`np.full`/`rng.beta` would raise instead; the theorems below assume
nonnegative weights.) -/
def exSize (w : ℚ) : ℕ := (⌊w * 5000⌋).toNat

/-- The pooled pick list of `get_prob_dist` (`som_tools.py` 748-761): expert
`i` (0-based) contributes `pert_dist` draws of size `int(w * 5000)` using its
own Beta oracle `betaDraw i`, experts with any missing value are skipped. -/
def pooledPicks (betaDraw : ℕ → ℕ → ℚ) : ℕ → List Expert → List ℚ
  | _, [] => []
  | i, e :: rest =>
    (match expertTriple e with
     | none => []
     | some t => pert_dist t.2.1 t.1 t.2.2 (exSize e.weight) (betaDraw i)) ++
    pooledPicks betaDraw (i + 1) rest

/-- `get_prob_dist(expecteds, lower_boundaries, upper_boundaries, weights)`
(`som_tools.py` 716-772).  Returns `none` (the `np.nan` marker, line 765)
when no expert contributed a pick; otherwise the pooled picks are divided by
100 and turned into the 101-bucket distribution. -/
def get_prob_dist (experts : List Expert) (betaDraw : ℕ → ℕ → ℚ) :
    Option (List ℚ) :=
  let picks := pooledPicks betaDraw 0 experts
  if picks = [] then none
  else some (get_dist_from_picks (picks.map (fun x => x / 100)))

/-- A cell of the `links['probability']` column as passed to `get_pick`
(`som_app.py` 149): either a synthesized distribution (a numpy array), the
float `np.nan` returned by `get_prob_dist` when no expert answered, or
Python `None`. -/
inductive PdCell where
  | dist (l : List ℚ)
  | nanF
  | noneV
deriving DecidableEq, Repr

/-- `get_pick(dist)` (`som_tools.py` 775-785).  The source guards
`if dist is not None`; inside the guard it reads `dist.size`, builds
`a = np.arange(0, 1 + step, step)` with `step = 1/(size-1)` (101 points
`0, 1/100, …, 1` for a 101-bucket array) and draws `np.random.choice(a, p=dist)`.
The random choice is modelled by the oracle index `draw` (valid draws are
those with `dist[draw] > 0`, drawn with probability `dist[draw]`), so the
returned value is `a[draw] = draw / (size - 1)`.  A `float('nan')` cell
passes the `is not None` guard and has no `.size` attribute, raising
`AttributeError`; only a literal `None` reaches the `return np.nan` branch
(modelled as `.ok none`). -/
def get_pick (d : PdCell) (draw : ℕ) : Except String (Option ℚ) :=
  if d ≠ PdCell.noneV then
    match d with
    | .dist l => .ok (some ((draw : ℚ) / ((l.length : ℚ) - 1)))
    | .nanF => .error "AttributeError: float object has no attribute size"
    | .noneV => .ok none
  else
    .ok none

/-! ## Case expander (`som_app.py` `build_cases`, 196-233) -/

/-- Expansion of one case row (`som_app.py` 203-216): the links of the row's
measure are selected; a measure with no links drops the row; each wildcard
field (`0`) is replaced by the distinct values of that column among the
measure's links (in order of first appearance, as `pandas.unique`); the three
columns are then exploded in the order activity, pressure, state, i.e. the
cartesian product with states innermost. -/
def expandRow (links : List Link) (r : CaseRow) : List CaseRow :=
  let mapsLinks := links.filter (fun l => decide (l.measure = r.measure))
  if mapsLinks.isEmpty then []
  else
    let acts := if r.activity = 0 then uniqueKeepFirst (mapsLinks.map (·.activity))
                else [r.activity]
    let press := if r.pressure = 0 then uniqueKeepFirst (mapsLinks.map (·.pressure))
                 else [r.pressure]
    let states := if r.state = 0 then uniqueKeepFirst (mapsLinks.map (·.state))
                  else [r.state]
    acts.flatMap (fun a => press.flatMap (fun p => states.map (fun s =>
      { r with activity := a, pressure := p, state := s })))

/-- The wildcard cross-expansion over all case rows (`som_app.py` 203-216). -/
def expandStage (cases : List CaseRow) (links : List Link) : List CaseRow :=
  cases.flatMap (expandRow links)

/-- The retention test after expansion (`som_app.py` 218-224): four
independent `isin` membership tests, each against the corresponding column of
the FULL links table (`links['measure']`, `links['activity']`,
`links['pressure']`, `links['state']`), combined with `&`. -/
def filterStage (cases : List CaseRow) (links : List Link) : List CaseRow :=
  cases.filter (fun r =>
    (links.map (·.measure)).contains r.measure &&
    (links.map (·.activity)).contains r.activity &&
    (links.map (·.pressure)).contains r.pressure &&
    (links.map (·.state)).contains r.state)

/-- The descending `(coverage, implementation)` ordering used by
`cases.sort_values(by=['coverage', 'implementation'], ascending=[False, False])`
(`som_app.py` 229): `x` may precede `y` when `x`'s key is lexicographically
at least `y`'s. -/
def caseKeyGE (x y : CaseRow) : Bool :=
  decide (y.coverage < x.coverage) ||
  (decide (x.coverage = y.coverage) && decide (y.implementation ≤ x.implementation))

/-- Insertion into a list sorted by `le`. -/
def insertBy (le : CaseRow → CaseRow → Bool) (a : CaseRow) :
    List CaseRow → List CaseRow
  | [] => [a]
  | b :: t => if le a b then a :: b :: t else b :: insertBy le a t

/-- A sort by `le` (insertion sort).  `pandas.sort_values` defaults to an
unstable quicksort, so the relative order of rows with equal keys is
unspecified in the source; this deterministic model fixes one such order
(which rows have tied keys does not matter for the claims below). -/
def sortBy (le : CaseRow → CaseRow → Bool) (l : List CaseRow) : List CaseRow :=
  l.foldr (insertBy le) []

/-- The deduplication key of `drop_duplicates(subset=['measure', 'activity',
'pressure', 'state', 'area_id'])` (`som_app.py` 230). -/
def caseKey (r : CaseRow) : ℤ × ℤ × ℤ × ℤ × ℤ :=
  (r.measure, r.activity, r.pressure, r.state, r.area_id)

/-- `drop_duplicates(..., keep='first')`: keep the first row of each key. -/
def dropDupKeepFirst : List (ℤ × ℤ × ℤ × ℤ × ℤ) → List CaseRow → List CaseRow
  | _, [] => []
  | seen, x :: t =>
    if caseKey x ∈ seen then dropDupKeepFirst seen t
    else x :: dropDupKeepFirst (caseKey x :: seen) t

/-- The deduplication stage (`som_app.py` 228-231): sort descending by
`(coverage, implementation)`, then keep the first row per
`(measure, activity, pressure, state, area_id)` key. -/
def dedupStage (cases : List CaseRow) : List CaseRow :=
  dropDupKeepFirst [] (sortBy caseKeyGE cases)

/-- `build_cases(cases, links)` (`som_app.py` 196-233): wildcard
cross-expansion, the four-fold `isin` retention test, then deduplication. -/
def build_cases (cases : List CaseRow) (links : List Link) : List CaseRow :=
  dedupStage (filterStage (expandStage cases links) links)

/-! ## Change propagator (`som_app.py` `build_changes`, 236-395) -/

/-- Pointwise update of a two-index table (a `DataFrame.at` assignment). -/
def updFun (f : ℤ → ℤ → ℚ) (i a : ℤ) (v : ℚ) : ℤ → ℤ → ℚ :=
  fun i' a' => if i' = i ∧ a' = a then v else f i' a'

/-- The mask `(activity_contributions['area_id'] == area) &
(activity_contributions['Pressure'] == p)` (`som_app.py` 262, 320). -/
def actMask (p a : ℤ) (ac : ActContrib) : Bool :=
  decide (ac.area_id = a) && decide (ac.pressure = p)

/-- The mask `(pressure_contributions['area_id'] == area) &
(pressure_contributions['State'] == s)` (`som_app.py` 272, 365). -/
def pressMask (s a : ℤ) (pc : PressContrib) : Bool :=
  decide (pc.area_id = a) && decide (pc.state = s)

/-- Sum of the activity-contribution values of the `(pressure, area)` family. -/
def actSum (acs : List ActContrib) (p a : ℤ) : ℚ :=
  ((acs.filter (actMask p a)).map (·.value)).sum

/-- Sum of the pressure-contribution averages of the `(state, area)` family. -/
def pressSum (pcs : List PressContrib) (s a : ℤ) : ℚ :=
  ((pcs.filter (pressMask s a)).map (·.average)).sum

/-- One body of the activity-contribution pre-step loop (`som_app.py`
260-267): if the `(pressure, area)` family is nonempty and its values sum to
more than 1, divide each of its values by the sum. -/
def normalizeActPair (acs : List ActContrib) (area p : ℤ) : List ActContrib :=
  let relevant := acs.filter (actMask p area)
  if relevant.length > 0 then
    let s := (relevant.map (·.value)).sum
    if 1 < s then
      acs.map (fun ac => if actMask p area ac then { ac with value := ac.value / s } else ac)
    else acs
  else acs

/-- "make sure activity contributions don't exceed 100 %" (`som_app.py`
259-267): the double loop over the case areas and all pressures. -/
def preStepAct (areas pressures : List ℤ) (acs : List ActContrib) : List ActContrib :=
  areas.foldl (fun acs area =>
    pressures.foldl (fun acs p => normalizeActPair acs area p) acs) acs

/-- One body of the pressure-contribution pre-step loop (`som_app.py`
270-277). -/
def normalizePressPair (pcs : List PressContrib) (area s : ℤ) : List PressContrib :=
  let relevant := pcs.filter (pressMask s area)
  if relevant.length > 0 then
    let sum := (relevant.map (·.average)).sum
    if 1 < sum then
      pcs.map (fun pc => if pressMask s area pc then { pc with average := pc.average / sum } else pc)
    else pcs
  else pcs

/-- "make sure pressure contributions don't exceed 100 %" (`som_app.py`
269-277). -/
def preStepPress (areas states : List ℤ) (pcs : List PressContrib) : List PressContrib :=
  areas.foldl (fun pcs area =>
    states.foldl (fun pcs s => normalizePressPair pcs area s) pcs) pcs

/-- The simulation state of `build_changes`: the two level tables (each cell
initialised to `1.0`), the two live contribution tables that are renormalised
in place, and `ok`, which records whether every `assert reduction <= 1`
(`som_app.py` 362) has held so far.  In the source a failed assert aborts the
replicate; here `ok` is sticky and the run continues, so states with
`ok = false` correspond to replicates that crashed at the first such assert. -/
structure SimState where
  pressureLevels : ℤ → ℤ → ℚ
  tpll : ℤ → ℤ → ℚ
  actContribs : List ActContrib
  pressContribs : List PressContrib
  ok : Bool

/-- The link lookup of `som_app.py` 296-300 (and 334-337): the first links
row matching the case's `(measure, activity, pressure, state)`; `none` means
the measure is skipped ("skip measure if data on the effect is not known").
`build_links` (line 143) asserts links are key-unique, so the first match is
the only one. -/
def lookupLink (links : List Link) (m : CaseRow) : Option Link :=
  links.find? (fun l => decide (l.measure = m.measure) && decide (l.activity = m.activity)
    && decide (l.pressure = m.pressure) && decide (l.state = m.state))

/-- The contribution lookup of `som_app.py` 307-316.  NOTE: the branch at
lines 308-309 (`if m['activity'] == 0: contribution = 1`, commented "if
activity is 0 (= straight to pressure), contribution will be 1") is dead
code: lines 311-316 recompute `contribution` from the table unconditionally,
so a wildcard activity gets the table value of activity 0 — which is 0 when
no such row exists. -/
def caseContribution (acs : List ActContrib) (m : CaseRow) (area : ℤ) : ℚ :=
  match acs.find? (fun ac => decide (ac.activity = m.activity)
      && decide (ac.pressure = m.pressure) && decide (ac.area_id = area)) with
  | none => 0
  | some ac => ac.value

/-- One iteration of the innermost loop of the Activity→Pressure step
(`som_app.py` 295-322), for the current `area`, pressure-row `p` and case
`m` (which satisfies `m.area_id = area` and `m.pressure = p`): look up the
link's sampled reduction, scale by coverage and implementation, scale by the
overlap multipliers with `Pressure == p`, `Overlapped == m.measure`,
`Activity == m.activity` (lines 294 and 305), read the contribution, multiply
the pressure level by `1 - reduction * contribution` and divide the whole
`(p, area)` contribution family by the same factor (lines 318-322). -/
def step1Case (links : List Link) (overlaps : List OverlapRow) (area p : ℤ)
    (st : SimState) (m : CaseRow) : SimState :=
  match lookupLink links m with
  | none => st
  | some row =>
    let reduction0 := row.reduction * m.coverage * m.implementation
    let reduction := (overlaps.filter (fun o => decide (o.pressure = p)
        && decide (o.overlapped = m.measure) && decide (o.activity = m.activity))).foldl
      (fun r o => r * o.multiplier) reduction0
    let contribution := caseContribution st.actContribs m area
    let factor := 1 - reduction * contribution
    { st with
      pressureLevels := updFun st.pressureLevels p area (st.pressureLevels p area * factor)
      actContribs := st.actContribs.map (fun ac =>
        if actMask p area ac then { ac with value := ac.value / factor } else ac) }

/-- The Activity→Pressure step (`som_app.py` 289-322): for each area, the
cases of that area; for each pressure row, the cases touching that pressure. -/
def step1 (links : List Link) (overlaps : List OverlapRow) (cases : List CaseRow)
    (pressures areas : List ℤ) (st : SimState) : SimState :=
  areas.foldl (fun st area =>
    let c := cases.filter (fun m => decide (m.area_id = area))
    pressures.foldl (fun st p =>
      (c.filter (fun m => decide (m.pressure = p))).foldl
        (step1Case links overlaps area p) st) st) st

/-- One iteration of the innermost loop of the direct-to-state step
(`som_app.py` 333-343).  `staleOverlaps` is the `relevant_overlaps` variable
left over from the LAST iteration of step 1's pressure loop (line 294): step
2 never rebinds it, so its rows are the overlaps whose `Pressure` equals the
last id of the pressure table, further filtered here by `(Overlapped,
Activity, Pressure)` against the case (line 341). -/
def step2Case (links : List Link) (staleOverlaps : List OverlapRow) (area s : ℤ)
    (st : SimState) (m : CaseRow) : SimState :=
  match lookupLink links m with
  | none => st
  | some row =>
    let reduction0 := row.reduction * m.coverage * m.implementation
    let reduction := (staleOverlaps.filter (fun o => decide (o.overlapped = m.measure)
        && decide (o.activity = m.activity) && decide (o.pressure = m.pressure))).foldl
      (fun r o => r * o.multiplier) reduction0
    { st with tpll := updFun st.tpll s area (st.tpll s area * (1 - reduction)) }

/-- The direct-to-state step (`som_app.py` 328-343).  When the pressure table
is empty `relevant_overlaps` was never assigned (a `NameError` in Python if a
matching case then exists); the model uses the empty list there. -/
def step2 (links : List Link) (overlaps : List OverlapRow) (cases : List CaseRow)
    (pressures states areas : List ℤ) (st : SimState) : SimState :=
  let staleOverlaps := match pressures.getLast? with
    | some pl => overlaps.filter (fun o => decide (o.pressure = pl))
    | none => []
  areas.foldl (fun st area =>
    let c := cases.filter (fun m => decide (m.area_id = area))
    states.foldl (fun st s =>
      (c.filter (fun m => decide (m.state = s))).foldl
        (step2Case links staleOverlaps area s) st) st) st

/-- One iteration of the innermost loop of the Pressure→State step
(`som_app.py` 350-367) for the current `area`, state `s` and
pressure-contribution row `p` (a SNAPSHOT row: `relevant_pressures` is a
copy taken at line 349, so `p.average` is the value the table had when the
`(area, s)` pass started).  The reduction is `1 -` the pressure's level plus
the weighted sub-pressure terms; `assert reduction <= 1` (line 362) is
recorded in `ok`; the state's load level is multiplied by
`1 - reduction * contribution` and the live `(s, area)` family of
`pressure_contributions` is divided by the same factor. -/
def step3Row (subs : List SubpressureRow) (area s : ℤ) (st : SimState)
    (p : PressContrib) : SimState :=
  let reduction0 := 1 - st.pressureLevels p.pressure area
  let contribution := p.average
  let reduction := (subs.filter (fun sp => decide (sp.state = s)
      && decide (sp.statePressure = p.pressure))).foldl
    (fun r sp => r + sp.multiplier * (1 - st.pressureLevels sp.reducedPressure area))
    reduction0
  let factor := 1 - reduction * contribution
  { st with
    tpll := updFun st.tpll s area (st.tpll s area * factor)
    pressContribs := st.pressContribs.map (fun pc =>
      if pressMask s area pc then { pc with average := pc.average / factor } else pc)
    ok := st.ok && decide (reduction ≤ 1) }

/-- The Pressure→State step (`som_app.py` 345-367).  NOTE: line 349 selects
`relevant_pressures` by `State == s` ONLY — rows of every area — while the
update at 363 and the renormalisation at 365-367 use the current `area`. -/
def step3 (subs : List SubpressureRow) (states areas : List ℤ)
    (st : SimState) : SimState :=
  areas.foldl (fun st area =>
    states.foldl (fun st s =>
      let relevantPressures := st.pressContribs.filter (fun pc => decide (pc.state = s))
      relevantPressures.foldl (step3Row subs area s) st) st) st

/-- One time step of the simulation loop (`som_app.py` 283-367). -/
def timeStep (links : List Link) (overlaps : List OverlapRow)
    (subs : List SubpressureRow) (cases : List CaseRow)
    (pressures states areas : List ℤ) (st : SimState) : SimState :=
  step3 subs states areas
    (step2 links overlaps cases pressures states areas
      (step1 links overlaps cases pressures areas st))

/-- `build_changes(data, links, time_steps)` (`som_app.py` 236-395):
`areas` is `cases['area_id'].unique()` (line 242); both level tables start
at `1.0` for every `(id, area)` cell (lines 249-252); the two pre-step
normalisations run once (lines 259-277); then `time_steps` iterations of the
simulation loop.  `pressures` and `states` are the full id enumerations
`data['pressure']['ID']` and `data['state']['ID']`. -/
def build_changes (pressures states : List ℤ) (cases : List CaseRow)
    (links : List Link) (acs : List ActContrib) (pcs : List PressContrib)
    (overlaps : List OverlapRow) (subs : List SubpressureRow)
    (timeSteps : ℕ) : SimState :=
  let areas := uniqueKeepFirst (cases.map (·.area_id))
  let st0 : SimState :=
    { pressureLevels := fun _ _ => 1
      tpll := fun _ _ => 1
      actContribs := preStepAct areas pressures acs
      pressContribs := preStepPress areas states pcs
      ok := true }
  (List.range timeSteps).foldl
    (fun st _ => timeStep links overlaps subs cases pressures states areas st) st0

/-! ## Replicate driver (`__main__.py` `run_sim`, 34-92, and
`utilities.py` `fail_with_message`, 49-58) -/

/-- The parameter list of `utilities.fail_with_message` as defined at
`utilities.py` 49: `def fail_with_message(m=None, e=None)`. -/
def fail_with_message_params : List String := ["m", "e"]

/-- Python call binding: `npos` positional arguments fill the first
parameters; every keyword argument must name one of the remaining
parameters, else the call raises `TypeError: unexpected keyword argument`. -/
def bindOk (params : List String) (npos : ℕ) (kwargs : List String) : Bool :=
  decide (npos ≤ params.length) && kwargs.all (fun k => (params.drop npos).contains k)

/-- The keyword arguments of the handler call at `__main__.py` 87:
`fail_with_message(f'ERROR! ...', e, file=log, do_not_exit=True)` —
two positional arguments plus these keywords. -/
def run_sim_handler_kwargs : List String := ["file", "do_not_exit"]

/-- Outcome of a replicate driver call. -/
inductive PyOutcome where
  | ret (n : ℕ)
  | raised (msg : String)
  | exited
deriving DecidableEq, Repr

/-- `run_sim` (`__main__.py` 34-92), as a function of its body's outcome:
a successful body returns 1; on an exception the handler at line 87 calls
`fail_with_message(msg, e, file=log, do_not_exit=True)`.  Against the
signature at `utilities.py` 49 that call's keywords do not bind
(`fail_with_message` has only `m` and `e`), so the handler itself raises
`TypeError` and `return 0` (line 89) is never reached; and even if the
keywords did bind, `fail_with_message` unconditionally calls `exit()`
(line 58), terminating the process. -/
def run_sim (body : Except String Unit) : PyOutcome :=
  match body with
  | .ok _ => .ret 1
  | .error _ =>
    if bindOk fail_with_message_params 2 run_sim_handler_kwargs then .exited
    else .raised "TypeError: fail_with_message() got an unexpected keyword argument"

/-! ## Helper lemmas -/

theorem foldl_inv {α : Type _} {β : Type _} (P : α → Prop) (f : α → β → α) :
    ∀ (l : List β) (s : α), P s → (∀ s b, b ∈ l → P s → P (f s b)) → P (l.foldl f s)
  | [], s, hs, _ => hs
  | b :: t, s, hs, hstep => by
    simp only [List.foldl_cons]
    exact foldl_inv P f t _ (hstep s b (List.mem_cons_self b t) hs)
      (fun s' b' hb' => hstep s' b' (List.mem_cons_of_mem _ hb'))

theorem mem_insertBy {le : CaseRow → CaseRow → Bool} {a x : CaseRow} :
    ∀ {l : List CaseRow}, x ∈ insertBy le a l ↔ x = a ∨ x ∈ l
  | [] => by simp [insertBy]
  | b :: t => by
    simp only [insertBy]
    split
    · simp
    · simp [mem_insertBy (l := t)]
      tauto

theorem mem_sortBy {le : CaseRow → CaseRow → Bool} {x : CaseRow} :
    ∀ {l : List CaseRow}, x ∈ sortBy le l ↔ x ∈ l
  | [] => Iff.rfl
  | b :: t => by
    show x ∈ insertBy le b (sortBy le t) ↔ _
    rw [mem_insertBy, mem_sortBy (l := t)]
    simp

theorem mem_dropDupKeepFirst {x : CaseRow} :
    ∀ {seen : List (ℤ × ℤ × ℤ × ℤ × ℤ)} {l : List CaseRow},
      x ∈ dropDupKeepFirst seen l → x ∈ l
  | _, [], h => by simp [dropDupKeepFirst] at h
  | seen, b :: t, h => by
    simp only [dropDupKeepFirst] at h
    split at h
    · exact List.mem_cons_of_mem _ (mem_dropDupKeepFirst h)
    · rcases List.mem_cons.mp h with h | h
      · exact h ▸ List.mem_cons_self _ _
      · exact List.mem_cons_of_mem _ (mem_dropDupKeepFirst h)

theorem mem_uniqueKeepFirst (l : List ℤ) (x : ℤ) :
    x ∈ uniqueKeepFirst l ↔ x ∈ l := by
  have key : ∀ (l : List ℤ) (acc : List ℤ),
      x ∈ l.foldl (fun acc y => if y ∈ acc then acc else acc ++ [y]) acc ↔
        x ∈ acc ∨ x ∈ l := by
    intro l
    induction l with
    | nil => simp
    | cons a t ih =>
      intro acc
      simp only [List.foldl_cons]
      rw [ih]
      split
      · simp only [List.mem_cons]
        constructor
        · rintro (h | h)
          · exact Or.inl h
          · exact Or.inr (Or.inr h)
        · rintro (h | h | h)
          · exact Or.inl h
          · exact Or.inl (h ▸ by assumption)
          · exact Or.inr h
      · simp only [List.mem_append, List.mem_singleton, List.mem_cons]
        tauto
  rw [uniqueKeepFirst, key]
  simp

theorem sort3_sorted (a b c : ℚ) :
    (sort3 a b c).1 ≤ (sort3 a b c).2.1 ∧ (sort3 a b c).2.1 ≤ (sort3 a b c).2.2 := by
  simp only [sort3]
  split_ifs <;> exact ⟨by linarith, by linarith⟩

theorem step2Case_pressureLevels (links : List Link) (staleOverlaps : List OverlapRow)
    (area s : ℤ) (st : SimState) (m : CaseRow) :
    (step2Case links staleOverlaps area s st m).pressureLevels = st.pressureLevels := by
  cases hl : lookupLink links m <;> simp [step2Case, hl]

theorem step3Row_pressureLevels (subs : List SubpressureRow) (area s : ℤ)
    (st : SimState) (p : PressContrib) :
    (step3Row subs area s st p).pressureLevels = st.pressureLevels := rfl

theorem step2_pressureLevels (links : List Link) (overlaps : List OverlapRow)
    (cases : List CaseRow) (pressures states areas : List ℤ) (st : SimState) :
    (step2 links overlaps cases pressures states areas st).pressureLevels
      = st.pressureLevels := by
  rw [step2]
  refine foldl_inv (fun x : SimState => x.pressureLevels = st.pressureLevels) _ _ _ rfl ?_
  intro s1 area _ hs1
  refine foldl_inv (fun x : SimState => x.pressureLevels = st.pressureLevels) _ _ _ hs1 ?_
  intro s2 sid _ hs2
  refine foldl_inv (fun x : SimState => x.pressureLevels = st.pressureLevels) _ _ _ hs2 ?_
  intro s4 m _ hs4
  rw [step2Case_pressureLevels, hs4]

theorem step3_pressureLevels (subs : List SubpressureRow) (states areas : List ℤ)
    (st : SimState) :
    (step3 subs states areas st).pressureLevels = st.pressureLevels := by
  rw [step3]
  refine foldl_inv (fun x : SimState => x.pressureLevels = st.pressureLevels) _ _ _ rfl ?_
  intro s1 area _ hs1
  refine foldl_inv (fun x : SimState => x.pressureLevels = st.pressureLevels) _ _ _ hs1 ?_
  intro s2 sid _ hs2
  refine foldl_inv (fun x : SimState => x.pressureLevels = st.pressureLevels) _ _ _ hs2 ?_
  intro s4 pc _ hs4
  rw [step3Row_pressureLevels, hs4]

theorem step1_frame (links : List Link) (overlaps : List OverlapRow)
    (cases : List CaseRow) (pressures areas : List ℤ) (p a : ℤ) (st : SimState)
    (h : ∀ m ∈ cases, ¬(m.area_id = a ∧ m.pressure = p))
    (hP : st.pressureLevels p a = 1) :
    (step1 links overlaps cases pressures areas st).pressureLevels p a = 1 := by
  rw [step1]
  refine foldl_inv (fun x : SimState => x.pressureLevels p a = 1) _ areas st hP ?_
  intro s1 area _ hs1
  refine foldl_inv (fun x : SimState => x.pressureLevels p a = 1) _ pressures s1 hs1 ?_
  intro s2 p2 _ hs2
  refine foldl_inv (fun x : SimState => x.pressureLevels p a = 1) _ _ s2 hs2 ?_
  intro s3 m hm hs3
  rw [List.mem_filter] at hm
  obtain ⟨hm1, hm2⟩ := hm
  rw [List.mem_filter] at hm1
  obtain ⟨hmc, hma⟩ := hm1
  have harea : m.area_id = area := of_decide_eq_true hma
  have hpress : m.pressure = p2 := of_decide_eq_true hm2
  cases hl : lookupLink links m with
  | none => simpa [step1Case, hl] using hs3
  | some row =>
    simp only [step1Case, hl]
    rw [updFun]
    split
    · rename_i hc
      exact absurd ⟨harea.trans hc.2.symm, hpress.trans hc.1.symm⟩ (h m hmc)
    · exact hs3

theorem filter_update_other (acs : List ActContrib) (p' a' p a : ℤ) (g : ActContrib → ℚ)
    (h : ¬(p' = p ∧ a' = a)) :
    (acs.map (fun ac => if actMask p' a' ac then { ac with value := g ac } else ac)).filter
      (actMask p a) = acs.filter (actMask p a) := by
  induction acs with
  | nil => rfl
  | cons ac t ih =>
    simp only [List.map_cons, List.filter_cons]
    by_cases h1 : actMask p' a' ac = true
    · have h2 : actMask p a ac = false := by
        rw [Bool.eq_false_iff]
        intro h3
        simp only [actMask, Bool.and_eq_true, decide_eq_true_eq] at h1 h3
        exact h ⟨h1.2.symm.trans h3.2, h1.1.symm.trans h3.1⟩
      have h4 : actMask p a { ac with value := g ac } = false := h2
      simp [h1, h2, h4, ih]
    · rw [Bool.not_eq_true] at h1
      simp only [h1, if_false, Bool.false_eq_true]
      by_cases h2 : actMask p a ac = true
      · simp [h2, ih]
      · rw [Bool.not_eq_true] at h2
        simp [h2, ih]

theorem filter_update_self (acs : List ActContrib) (p a : ℤ) (g : ActContrib → ℚ) :
    (acs.map (fun ac => if actMask p a ac then { ac with value := g ac } else ac)).filter
      (actMask p a) =
      (acs.filter (actMask p a)).map (fun ac => { ac with value := g ac }) := by
  induction acs with
  | nil => rfl
  | cons ac t ih =>
    simp only [List.map_cons, List.filter_cons]
    by_cases h1 : actMask p a ac = true
    · have h4 : actMask p a { ac with value := g ac } = true := h1
      simp [h1, h4, ih]
    · rw [Bool.not_eq_true] at h1
      simp [h1, ih]

theorem sum_map_value_scale (l : List ActContrib) (s : ℚ) :
    ((l.map (fun ac => { ac with value := ac.value / s })).map (fun ac => ac.value)).sum
      = ((l.map (fun ac => ac.value)).sum) / s := by
  induction l with
  | nil => simp
  | cons ac t ih =>
    simp only [List.map_cons, List.sum_cons]
    rw [ih, add_div]

theorem normalizeActPair_frame (acs : List ActContrib) (a' p' p a : ℤ)
    (h : ¬(p' = p ∧ a' = a)) :
    (normalizeActPair acs a' p').filter (actMask p a) = acs.filter (actMask p a) := by
  simp only [normalizeActPair]
  split
  · split
    · exact filter_update_other acs p' a' p a _ h
    · rfl
  · rfl

theorem normalizeActPair_self (acs : List ActContrib) (p a : ℤ) :
    (normalizeActPair acs a p).filter (actMask p a) =
      if 1 < actSum acs p a then
        (acs.filter (actMask p a)).map
          (fun ac => { ac with value := ac.value / actSum acs p a })
      else acs.filter (actMask p a) := by
  have hact : actSum acs p a
      = (List.map (fun x => x.value) (List.filter (actMask p a) acs)).sum := rfl
  simp only [normalizeActPair]
  split
  · rename_i hlen
    split
    · rename_i hsum
      rw [filter_update_self, if_pos (by rw [hact]; exact hsum)]
      rw [hact]
    · rename_i hsum
      rw [if_neg (by rw [hact]; exact hsum)]
  · rename_i hlen
    have hnil : acs.filter (actMask p a) = [] :=
      List.eq_nil_of_length_eq_zero (by omega)
    rw [if_neg]
    rw [hact, hnil]
    simp

theorem preStepAct_characterize (areas pressures : List ℤ) (acs : List ActContrib)
    (p a : ℤ) (ha : a ∈ areas) (hp : p ∈ pressures) :
    (preStepAct areas pressures acs).filter (actMask p a) =
      if 1 < actSum acs p a then
        (acs.filter (actMask p a)).map
          (fun ac => { ac with value := ac.value / actSum acs p a })
      else acs.filter (actMask p a) := by
  set famN := if 1 < actSum acs p a then
      (acs.filter (actMask p a)).map
        (fun ac => { ac with value := ac.value / actSum acs p a })
    else acs.filter (actMask p a) with hfamN
  -- the family described by famN sums to at most 1
  have hsumN : ((famN.map (fun ac => ac.value)).sum) ≤ 1 := by
    rw [hfamN]
    split
    · rename_i hgt
      rw [sum_map_value_scale,
        show (List.map (fun ac => ac.value) (List.filter (actMask p a) acs)).sum
          = actSum acs p a from rfl,
        div_self (by intro h0; rw [h0] at hgt; norm_num at hgt)]
    · rename_i hle
      push_neg at hle
      exact hle
  -- absorbing: once the family equals famN it stays famN
  have habs : ∀ (x : List ActContrib) (a' p' : ℤ), x.filter (actMask p a) = famN →
      (normalizeActPair x a' p').filter (actMask p a) = famN := by
    intro x a' p' hx
    by_cases hpair : p' = p ∧ a' = a
    · obtain ⟨rfl, rfl⟩ := hpair
      rw [normalizeActPair_self]
      rw [if_neg]
      · exact hx
      · have : actSum x p' a' = ((x.filter (actMask p' a')).map (fun ac => ac.value)).sum := rfl
        rw [this, hx]
        push_neg
        exact hsumN
    · rw [normalizeActPair_frame x a' p' p a hpair, hx]
  -- invariant: the family is either untouched or already famN
  have hQ : ∀ (x : List ActContrib) (a' p' : ℤ),
      (x.filter (actMask p a) = acs.filter (actMask p a) ∨ x.filter (actMask p a) = famN) →
      ((normalizeActPair x a' p').filter (actMask p a) = acs.filter (actMask p a) ∨
        (normalizeActPair x a' p').filter (actMask p a) = famN) := by
    intro x a' p' hx
    by_cases hpair : p' = p ∧ a' = a
    · obtain ⟨rfl, rfl⟩ := hpair
      rcases hx with hx | hx
      · right
        rw [normalizeActPair_self]
        have hsx : actSum x p' a' = actSum acs p' a' := by
          show ((x.filter (actMask p' a')).map (fun ac => ac.value)).sum = _
          rw [hx]; rfl
        rw [hsx, hx, hfamN]
      · right
        exact habs x _ _ hx
    · rcases hx with hx | hx
      · left; rw [normalizeActPair_frame x a' p' p a hpair, hx]
      · right; rw [normalizeActPair_frame x a' p' p a hpair, hx]
  -- processing the pair (a, p) lands on famN
  have hdone : ∀ (x : List ActContrib),
      (x.filter (actMask p a) = acs.filter (actMask p a) ∨ x.filter (actMask p a) = famN) →
      (normalizeActPair x a p).filter (actMask p a) = famN := by
    intro x hx
    rcases hx with hx | hx
    · rw [normalizeActPair_self]
      have hsx : actSum x p a = actSum acs p a := by
        show ((x.filter (actMask p a)).map (fun ac => ac.value)).sum = _
        rw [hx]; rfl
      rw [hsx, hx, hfamN]
    · exact habs x a p hx
  -- inner fold: preserves the invariant, preserves famN, and lands on famN at area a
  have hinner_Q : ∀ (a' : ℤ) (x : List ActContrib),
      (x.filter (actMask p a) = acs.filter (actMask p a) ∨ x.filter (actMask p a) = famN) →
      ((pressures.foldl (fun y p' => normalizeActPair y a' p') x).filter (actMask p a)
          = acs.filter (actMask p a) ∨
        (pressures.foldl (fun y p' => normalizeActPair y a' p') x).filter (actMask p a)
          = famN) := by
    intro a' x hx
    exact foldl_inv (fun y : List ActContrib =>
        y.filter (actMask p a) = acs.filter (actMask p a) ∨ y.filter (actMask p a) = famN)
      _ pressures x hx (fun y p' _ hy => hQ y a' p' hy)
  have hinner_N : ∀ (a' : ℤ) (x : List ActContrib), x.filter (actMask p a) = famN →
      (pressures.foldl (fun y p' => normalizeActPair y a' p') x).filter (actMask p a)
        = famN := by
    intro a' x hx
    exact foldl_inv (fun y : List ActContrib => y.filter (actMask p a) = famN)
      _ pressures x hx (fun y p' _ hy => habs y a' p' hy)
  have hinner_a : ∀ (x : List ActContrib),
      (x.filter (actMask p a) = acs.filter (actMask p a) ∨ x.filter (actMask p a) = famN) →
      (pressures.foldl (fun y p' => normalizeActPair y a p') x).filter (actMask p a)
        = famN := by
    intro x hx
    obtain ⟨P1, P2, hP⟩ := List.append_of_mem hp
    rw [hP, List.foldl_append, List.foldl_cons]
    have hx1 := foldl_inv (fun y : List ActContrib =>
        y.filter (actMask p a) = acs.filter (actMask p a) ∨ y.filter (actMask p a) = famN)
      _ P1 x hx (fun y p' _ hy => hQ y a p' hy)
    have hx2 := hdone _ hx1
    exact foldl_inv (fun y : List ActContrib => y.filter (actMask p a) = famN)
      _ P2 _ hx2 (fun y p' _ hy => habs y a p' hy)
  -- outer fold
  rw [preStepAct]
  obtain ⟨A1, A2, hA⟩ := List.append_of_mem ha
  rw [hA, List.foldl_append, List.foldl_cons]
  have hx1 := foldl_inv (fun y : List ActContrib =>
      y.filter (actMask p a) = acs.filter (actMask p a) ∨ y.filter (actMask p a) = famN)
    _ A1 acs (Or.inl rfl) (fun y a' _ hy => hinner_Q a' y hy)
  have hx2 := hinner_a _ hx1
  exact foldl_inv (fun y : List ActContrib => y.filter (actMask p a) = famN)
    _ A2 _ hx2 (fun y a' _ hy => hinner_N a' y hy)

theorem list_range_map_sum (n : ℕ) (f : ℕ → ℚ) :
    ((List.range n).map f).sum = ∑ i in Finset.range n, f i := by
  induction n with
  | zero => simp
  | succ n ih =>
    rw [List.range_succ, List.map_append, List.sum_append, Finset.sum_range_succ, ih]
    simp

theorem countP_replicate (p : ℚ → Bool) (n : ℕ) (x : ℚ) :
    (List.replicate n x).countP p = if p x then n else 0 := by
  induction n with
  | zero => simp
  | succ n ih =>
    rw [List.replicate_succ, List.countP_cons, ih]
    split <;> simp

theorem sum_map_div (l : List ℚ) (s : ℚ) :
    (l.map (fun c => c / s)).sum = l.sum / s := by
  induction l with
  | nil => simp
  | cons c t ih =>
    simp only [List.map_cons, List.sum_cons]
    rw [ih, add_div]

theorem count_bucket_sum (l : List ℚ)
    (h : ∀ x ∈ l, ∃ k : ℕ, k ≤ 100 ∧ x = (k : ℚ) / 100) :
    ((List.range 101).map
      (fun (i : ℕ) => ((l.countP (fun x => decide (x = (i : ℚ) / 100))) : ℚ))).sum
      = l.length := by
  induction l with
  | nil => simp
  | cons x t ih =>
    obtain ⟨k, hk, rfl⟩ := h x (List.mem_cons_self x t)
    have ht := ih (fun y hy => h y (List.mem_cons_of_mem _ hy))
    have key : ∀ i : ℕ,
        ((List.countP (fun y => decide (y = (i : ℚ) / 100)) ((k : ℚ) / 100 :: t) : ℕ) : ℚ)
          = ((List.countP (fun y => decide (y = (i : ℚ) / 100)) t : ℕ) : ℚ)
            + (if i = k then (1 : ℚ) else 0) := by
      intro i
      rw [List.countP_cons]
      by_cases hik : i = k
      · subst hik
        simp
      · have hne : ¬((k : ℚ) / 100 = (i : ℚ) / 100) := by
          intro hq
          apply hik
          have h2 : (k : ℚ) = (i : ℚ) := by
            field_simp at hq
            exact_mod_cast hq
          exact_mod_cast h2.symm
        simp [hne, hik]
    rw [list_range_map_sum]
    calc ∑ i in Finset.range 101,
          ((List.countP (fun y => decide (y = (i : ℚ) / 100)) ((k : ℚ) / 100 :: t) : ℕ) : ℚ)
        = ∑ i in Finset.range 101,
            (((List.countP (fun y => decide (y = (i : ℚ) / 100)) t : ℕ) : ℚ)
              + (if i = k then (1 : ℚ) else 0)) := Finset.sum_congr rfl (fun i _ => key i)
      _ = (∑ i in Finset.range 101,
            ((List.countP (fun y => decide (y = (i : ℚ) / 100)) t : ℕ) : ℚ))
          + ∑ i in Finset.range 101, (if i = k then (1 : ℚ) else 0) := by
            rw [Finset.sum_add_distrib]
      _ = (t.length : ℚ) + 1 := by
            rw [← list_range_map_sum, ht, Finset.sum_ite_eq' (Finset.range 101) k (fun _ => (1:ℚ))]
            rw [if_pos (Finset.mem_range.mpr (by omega))]
      _ = (((k : ℚ) / 100 :: t).length : ℚ) := by
            rw [List.length_cons]
            push_cast
            ring

theorem roundHalfEven_bounds (q : ℚ) (h0 : 0 ≤ q) (h1 : q ≤ 100) :
    0 ≤ roundHalfEven q ∧ roundHalfEven q ≤ 100 := by
  have hf0 : 0 ≤ ⌊q⌋ := Int.floor_nonneg.mpr h0
  have hfle : (⌊q⌋ : ℚ) ≤ q := Int.floor_le q
  have hcap : ⌊q⌋ ≤ 100 := by
    by_contra hcon
    push_neg at hcon
    have : (101 : ℚ) ≤ (⌊q⌋ : ℚ) := by exact_mod_cast hcon
    linarith
  have hplus : 1/2 ≤ q - (⌊q⌋ : ℚ) → ⌊q⌋ + 1 ≤ 100 := by
    intro hr
    by_contra hcon
    push_neg at hcon
    have : (100 : ℚ) ≤ (⌊q⌋ : ℚ) := by exact_mod_cast (by omega : (100:ℤ) ≤ ⌊q⌋)
    linarith
  rw [roundHalfEven]
  split_ifs with hr1 hr2 hpar
  · exact ⟨hf0, hcap⟩
  · exact ⟨by omega, hplus (le_of_lt hr2)⟩
  · exact ⟨hf0, hcap⟩
  · push_neg at hr1 hr2
    exact ⟨by omega, hplus (by linarith)⟩

theorem round2_bucket (x : ℚ) (h0 : 0 ≤ x) (h1 : x ≤ 1) :
    ∃ k : ℕ, k ≤ 100 ∧ round2 x = (k : ℚ) / 100 := by
  have hb := roundHalfEven_bounds (x * 100) (by positivity) (by linarith)
  refine ⟨(roundHalfEven (x * 100)).toNat, by omega, ?_⟩
  rw [round2]
  congr 1
  rw [show (((roundHalfEven (x * 100)).toNat : ℕ) : ℚ)
    = (((roundHalfEven (x * 100)).toNat : ℤ) : ℚ) by push_cast; ring]
  rw [Int.toNat_of_nonneg hb.1]

theorem sort3_all {P : ℚ → Prop} (a b c : ℚ) (ha : P a) (hb : P b) (hc : P c) :
    P (sort3 a b c).1 ∧ P (sort3 a b c).2.1 ∧ P (sort3 a b c).2.2 := by
  simp only [sort3]
  split_ifs <;> exact ⟨by assumption, by assumption, by assumption⟩

theorem pert_dist_bounds (peak low high : ℚ) (size : ℕ) (betaDraw : ℕ → ℚ)
    (hlp : low ≤ peak) (hph : peak ≤ high) (hlo : 0 ≤ low) (hhi : high ≤ 100)
    (hB : ∀ j, 0 ≤ betaDraw j ∧ betaDraw j ≤ 1) :
    ∀ x ∈ pert_dist peak low high size betaDraw, 0 ≤ x ∧ x ≤ 100 := by
  intro x hx
  rw [pert_dist] at hx
  split at hx
  · rw [List.eq_of_mem_replicate hx]
    constructor <;> linarith
  · rw [List.mem_map] at hx
    obtain ⟨j, hj, rfl⟩ := hx
    obtain ⟨hb0, hb1⟩ := hB j
    have hr : 0 ≤ high - low := by linarith
    constructor
    · nlinarith
    · nlinarith

theorem expertTriple_eq_some {e : Expert} {t : ℚ × ℚ × ℚ}
    (h : expertTriple e = some t) :
    ∃ l ex u, e.lower = some l ∧ e.expected = some ex ∧ e.upper = some u ∧
      t = sort3 l ex u := by
  obtain ⟨eex, el, eu, ew⟩ := e
  cases el <;> cases eex <;> cases eu <;>
    simp only [expertTriple, Option.some.injEq, reduceCtorEq] at h <;>
    first
      | exact absurd h (by simp)
      | exact ⟨_, _, _, rfl, rfl, rfl, h.symm⟩

theorem pooledPicks_bounds (betaDraw : ℕ → ℕ → ℚ)
    (hB : ∀ i j, 0 ≤ betaDraw i j ∧ betaDraw i j ≤ 1) :
    ∀ (experts : List Expert) (i0 : ℕ),
      (∀ e ∈ experts, ∀ v : ℚ,
        (e.expected = some v ∨ e.lower = some v ∨ e.upper = some v) → 0 ≤ v ∧ v ≤ 100) →
      ∀ x ∈ pooledPicks betaDraw i0 experts, 0 ≤ x ∧ x ≤ 100
  | [], i0, h, x, hx => by simp [pooledPicks] at hx
  | e :: rest, i0, h, x, hx => by
    rw [pooledPicks] at hx
    rcases List.mem_append.mp hx with hx | hx
    · cases he : expertTriple e with
      | none => rw [he] at hx; simp at hx
      | some t =>
        rw [he] at hx
        obtain ⟨l, ex, u, hl, hex, hu, rfl⟩ := expertTriple_eq_some he
        have hval := h e (List.mem_cons_self e rest)
        have hlB := hval l (Or.inr (Or.inl hl))
        have hexB := hval ex (Or.inl hex)
        have huB := hval u (Or.inr (Or.inr hu))
        have hs := sort3_sorted l ex u
        have hall := sort3_all (P := fun v => 0 ≤ v ∧ v ≤ 100) l ex u hlB hexB huB
        exact pert_dist_bounds _ _ _ _ _ hs.1 hs.2 hall.1.1 hall.2.2.2 (hB i0) x hx
    · exact pooledPicks_bounds betaDraw hB rest (i0 + 1)
        (fun e' he' => h e' (List.mem_cons_of_mem _ he')) x hx

theorem sort3_diag (v : ℚ) : sort3 v v v = (v, v, v) := by
  simp [sort3]

/-! ## Claims -/

/-- C1: the claim states that a case with wildcard activity 0 always gets
contribution 1 in the Activity→Pressure update.  In the code the assignment
`contribution = 1` at `som_app.py` 308-309 is immediately overwritten by the
unconditional table lookup at 311-316, so a wildcard case with no
ActivityContribution row for activity 0 gets contribution 0 (first conjunct:
the measure then has no effect), and when such a row does exist the case
gets the row's value, not 1 (second conjunct). -/
theorem c1_wildcard_contribution_overwritten :
    caseContribution [] ⟨1, 0, 20, 30, 1, 1, 1⟩ 1 = 0 ∧
    caseContribution [⟨0, 20, 1, 2/5⟩] ⟨1, 0, 20, 30, 1, 1, 1⟩ 1 = 2/5 := by
  norm_num [caseContribution, List.find?]

/-- C2 counterexample: one case (measure 1, activity 10, pressure 20, area 1,
coverage = implementation = 1) whose link reduction is 1/2, with a single
ActivityContribution entry of value 1 for (activity 10, pressure 20, area 1).
The contribution sum for (pressure 20, area 1) is exactly 1 before the time
step, yet after the step's in-place renormalization (division of the family
by `1 - reduction * contribution = 1/2`) the sum is 2 > 1 — refuting the
claim that sums ≤ 1 before a step remain ≤ 1 after it. -/
theorem c2_renorm_sum_counterexample :
    actSum [⟨10, 20, 1, 1⟩] 20 1 = 1 ∧
    actSum (build_changes [20] [30] [⟨1, 10, 20, 30, 1, 1, 1⟩] [⟨1, 10, 20, 30, 1/2⟩]
      [⟨10, 20, 1, 1⟩] [] [] [] 1).actContribs 20 1 = 2 ∧
    ¬ ((2 : ℚ) ≤ 1) := by
  refine ⟨by norm_num [actSum, actMask], ?_, by norm_num⟩
  norm_num [actSum, actMask, build_changes, uniqueKeepFirst, preStepAct, preStepPress,
    normalizeActPair, normalizePressPair, timeStep, step1, step2, step3, step1Case, step2Case,
    step3Row, lookupLink, caseContribution, List.find?, updFun, List.range_succ]

/-- C2 (amended): for every (pressure, area) pair covered by the pre-step
loops of `build_changes` (`som_app.py` 259-267), if the summed
ActivityContribution values exceed 1 the pre-step check rescales them by
dividing by the sum so that they afterwards sum to exactly 1, and if the sum
is at most 1 the family is left unchanged.  (The within-step renormalization
can push the sum back above 1 — see the counterexample.) -/
theorem c2_prestep_rescale (areas pressures : List ℤ) (acs : List ActContrib)
    (p a : ℤ) (ha : a ∈ areas) (hp : p ∈ pressures) :
    (1 < actSum acs p a → actSum (preStepAct areas pressures acs) p a = 1) ∧
    (actSum acs p a ≤ 1 →
      (preStepAct areas pressures acs).filter (actMask p a) = acs.filter (actMask p a)) := by
  have hc := preStepAct_characterize areas pressures acs p a ha hp
  constructor
  · intro hgt
    rw [show actSum (preStepAct areas pressures acs) p a
        = (((preStepAct areas pressures acs).filter (actMask p a)).map
            (fun ac => ac.value)).sum from rfl,
      hc, if_pos hgt, sum_map_value_scale,
      show (List.map (fun ac => ac.value) (List.filter (actMask p a) acs)).sum
        = actSum acs p a from rfl,
      div_self (by intro h0; rw [h0] at hgt; norm_num at hgt)]
  · intro hle
    rw [hc, if_neg (not_lt.mpr hle)]

/-- C2 witness: rescaling in action on a one-row family with value 2. -/
theorem c2_prestep_rescale_witness :
    ((1 : ℤ) ∈ [(1 : ℤ)] ∧ (20 : ℤ) ∈ [(20 : ℤ)] ∧
      1 < actSum [⟨10, 20, 1, 2⟩] 20 1) ∧
    actSum (preStepAct [1] [20] [⟨10, 20, 1, 2⟩]) 20 1 = 1 := by
  refine ⟨⟨by simp, by simp, by norm_num [actSum, actMask]⟩, ?_⟩
  exact (c2_prestep_rescale [1] [20] [⟨10, 20, 1, 2⟩] 20 1 (by simp) (by simp)).1
    (by norm_num [actSum, actMask])

/-- C3: with well-formed inputs (two cases for measure 1 and measure 2 on
pressure 20 in area 1, link reductions 1/2 and 1, coverage = implementation
= 1, one ActivityContribution of value 1, so the pre-step sums are ≤ 1) the
replicate completes with every assert passing (`ok = true`), yet the final
PressureLevel[20, area 1] is −1/2: the first case's update halves the level
and doubles the contribution (to 2), so the second case's factor is
`1 − 1·2 = −1` and the level leaves [0, 1], contradicting the claim and the
code's own comments (`som_app.py` 247-251). -/
theorem c3_pressure_level_escapes_unit_interval :
    (build_changes [20] [30] [⟨1, 10, 20, 30, 1, 1, 1⟩, ⟨2, 10, 20, 30, 1, 1, 1⟩]
      [⟨1, 10, 20, 30, 1/2⟩, ⟨2, 10, 20, 30, 1⟩] [⟨10, 20, 1, 1⟩] [] [] [] 1).pressureLevels 20 1
      = -(1/2) ∧
    (build_changes [20] [30] [⟨1, 10, 20, 30, 1, 1, 1⟩, ⟨2, 10, 20, 30, 1, 1, 1⟩]
      [⟨1, 10, 20, 30, 1/2⟩, ⟨2, 10, 20, 30, 1⟩] [⟨10, 20, 1, 1⟩] [] [] [] 1).ok = true ∧
    ¬ ((0 : ℚ) ≤ -(1/2)) := by
  refine ⟨?_, ?_, by norm_num⟩ <;>
  norm_num [build_changes, uniqueKeepFirst, preStepAct, preStepPress, actMask, pressMask,
    normalizeActPair, normalizePressPair, timeStep, step1, step2, step3, step1Case, step2Case,
    step3Row, lookupLink, caseContribution, List.find?, updFun, List.range_succ,
    Function.comp, Option.map]

/-- C4 counterexample: links = {(measure 1, activity 10, pressure 20,
state 30), (measure 2, activity 11, pressure 20, state 30)} and the concrete
case (measure 1, activity 11, pressure 20, state 30, area 7).  Activity 11
never occurs among measure 1's links, yet the row survives `build_cases`
because each `isin` test is made against the full links columns —
refuting the claim that the retention test is scoped to the row's measure. -/
theorem c4_measure_scope_counterexample :
    (⟨1, 11, 20, 30, 7, 1, 1⟩ : CaseRow) ∈
      build_cases [⟨1, 11, 20, 30, 7, 1, 1⟩] [⟨1, 10, 20, 30, 0⟩, ⟨2, 11, 20, 30, 0⟩] ∧
    ¬ (11 : ℤ) ∈ (([⟨1, 10, 20, 30, 0⟩, ⟨2, 11, 20, 30, 0⟩] : List Link).filter
      (fun l => decide (l.measure = 1))).map (fun l => l.activity) := by
  constructor
  · norm_num [build_cases, expandStage, filterStage, dedupStage, expandRow, sortBy, insertBy,
      dropDupKeepFirst, caseKey, caseKeyGE, uniqueKeepFirst, List.flatMap]
  · decide

/-- C4 (amended): every row retained by case expansion (and surviving
deduplication) has each of its four fields individually present among the
corresponding column of the FULL links table — the four membership tests of
`som_app.py` 219-224 are unscoped `isin` tests against whole columns, not
tests against the Link rows of the row's own measure. -/
theorem c4_retention_global_membership (cases : List CaseRow) (links : List Link)
    (r : CaseRow) (h : r ∈ build_cases cases links) :
    r.measure ∈ links.map (fun l => l.measure) ∧
    r.activity ∈ links.map (fun l => l.activity) ∧
    r.pressure ∈ links.map (fun l => l.pressure) ∧
    r.state ∈ links.map (fun l => l.state) := by
  have h2 : r ∈ filterStage (expandStage cases links) links :=
    mem_sortBy.mp (mem_dropDupKeepFirst h)
  rw [filterStage, List.mem_filter] at h2
  obtain ⟨-, hp⟩ := h2
  simp only [Bool.and_eq_true, List.elem_iff] at hp
  tauto

/-- C4 witness: a concrete retained row drawn from the links columns. -/
theorem c4_retention_global_membership_witness :
    (⟨1, 10, 20, 30, 7, 1, 1⟩ : CaseRow) ∈
      build_cases [⟨1, 10, 20, 30, 7, 1, 1⟩] [⟨1, 10, 20, 30, 0⟩] ∧
    ((1 : ℤ) ∈ ([⟨1, 10, 20, 30, 0⟩] : List Link).map (fun l => l.measure) ∧
     (10 : ℤ) ∈ ([⟨1, 10, 20, 30, 0⟩] : List Link).map (fun l => l.activity) ∧
     (20 : ℤ) ∈ ([⟨1, 10, 20, 30, 0⟩] : List Link).map (fun l => l.pressure) ∧
     (30 : ℤ) ∈ ([⟨1, 10, 20, 30, 0⟩] : List Link).map (fun l => l.state)) := by
  have hmem : (⟨1, 10, 20, 30, 7, 1, 1⟩ : CaseRow) ∈
      build_cases [⟨1, 10, 20, 30, 7, 1, 1⟩] [⟨1, 10, 20, 30, 0⟩] := by
    norm_num [build_cases, expandStage, filterStage, dedupStage, expandRow, sortBy, insertBy,
      dropDupKeepFirst, caseKey, caseKeyGE, uniqueKeepFirst, List.flatMap]
  exact ⟨hmem, c4_retention_global_membership _ _ _ hmem⟩

/-- C5: `get_pick` guards with `if dist is not None` (`som_tools.py` 779),
but the missing-data marker actually produced by `get_prob_dist` is the
float `np.nan` (line 765), which is not `None` and has no `.size`
attribute.  First conjunct: passing the nan marker raises `AttributeError`
instead of propagating the undefined value.  Second conjunct: only a literal
`None` reaches the `return np.nan` branch.  Third conjunct: on a defined
101-bucket distribution a draw of index 40 returns 40/100 = 2/5, an element
of {0, 1/100, …, 1} (draw i occurs with probability dist[i]). -/
theorem c5_get_pick_nan_raises :
    get_pick PdCell.nanF 0 = .error "AttributeError: float object has no attribute size" ∧
    get_pick PdCell.noneV 0 = .ok none ∧
    get_pick (PdCell.dist ((List.range 101).map (fun _ => (1:ℚ)/101))) 40
      = .ok (some (2/5)) := by
  refine ⟨rfl, rfl, ?_⟩
  norm_num [get_pick]
  exact fun h => nomatch h

/-- C6: the handler of `run_sim` (`__main__.py` 86-89) calls
`fail_with_message(msg, e, file=log, do_not_exit=True)`, but
`utilities.fail_with_message` (`utilities.py` 49) accepts only `(m, e)` —
the keyword arguments do not bind, so the handler itself raises `TypeError`
and `run_sim` neither logs via that call nor returns 0; the run dies instead
of continuing with the remaining replicates. -/
theorem c6_run_sim_handler_raises :
    run_sim (.error "AssertionError") =
      .raised "TypeError: fail_with_message() got an unexpected keyword argument" ∧
    bindOk fail_with_message_params 2 run_sim_handler_kwargs = false ∧
    run_sim (.ok ()) = .ret 1 := by
  exact ⟨rfl, rfl, rfl⟩

/-- C7: every defined distribution returned by `get_prob_dist` — for expert
answers that are percentages in [0, 100] and Beta draws in [0, 1] — is a
sequence of exactly 101 weights, each ≥ 0, summing to exactly 1. -/
theorem c7_distribution_valid (experts : List Expert) (betaDraw : ℕ → ℕ → ℚ)
    (hE : ∀ e ∈ experts, ∀ v : ℚ,
      (e.expected = some v ∨ e.lower = some v ∨ e.upper = some v) → 0 ≤ v ∧ v ≤ 100)
    (hB : ∀ i j, 0 ≤ betaDraw i j ∧ betaDraw i j ≤ 1)
    (d : List ℚ) (hd : get_prob_dist experts betaDraw = some d) :
    d.length = 101 ∧ (∀ x ∈ d, 0 ≤ x) ∧ d.sum = 1 := by
  simp only [get_prob_dist] at hd
  split at hd
  · exact absurd hd (by simp)
  · rename_i hne
    rw [Option.some.injEq] at hd
    subst hd
    have hmb : ∀ y ∈ (pooledPicks betaDraw 0 experts).map (fun x => x / 100),
        0 ≤ y ∧ y ≤ 1 := by
      intro y hy
      rw [List.mem_map] at hy
      obtain ⟨x, hx, rfl⟩ := hy
      obtain ⟨hx0, hx1⟩ := pooledPicks_bounds betaDraw hB experts 0 hE x hx
      constructor
      · positivity
      · rw [div_le_one (by norm_num)]
        exact hx1
    have hbucket : ∀ z ∈ ((pooledPicks betaDraw 0 experts).map (fun x => x / 100)).map round2,
        ∃ k : ℕ, k ≤ 100 ∧ z = (k : ℚ) / 100 := by
      intro z hz
      rw [List.mem_map] at hz
      obtain ⟨y, hy, rfl⟩ := hz
      obtain ⟨hy0, hy1⟩ := hmb y hy
      exact round2_bucket y hy0 hy1
    have htotal := count_bucket_sum _ hbucket
    have hlen_pos : ((((pooledPicks betaDraw 0 experts).map
        (fun x => x / 100)).map round2).length : ℚ) ≠ 0 := by
      simp only [List.length_map]
      rw [Nat.cast_ne_zero]
      exact fun h => hne (List.length_eq_zero.mp h)
    simp only [get_dist_from_picks]
    refine ⟨by simp, ?_, ?_⟩
    · intro x hx
      rw [List.mem_map] at hx
      obtain ⟨c, hc, rfl⟩ := hx
      rw [List.mem_map] at hc
      obtain ⟨i, hi, rfl⟩ := hc
      apply div_nonneg (by positivity)
      rw [htotal]
      positivity
    · rw [sum_map_div, htotal, div_self hlen_pos]

/-- C7 witness: a single expert with all answers 50 and weight 1. -/
theorem c7_distribution_valid_witness :
    (∃ d, get_prob_dist [⟨some 50, some 50, some 50, 1⟩] (fun _ _ => 1/2) = some d) ∧
    (∀ d, get_prob_dist [⟨some 50, some 50, some 50, 1⟩] (fun _ _ => 1/2) = some d →
      d.length = 101 ∧ (∀ x ∈ d, 0 ≤ x) ∧ d.sum = 1) := by
  constructor
  · simp only [get_prob_dist]
    rw [if_neg]
    · exact ⟨_, rfl⟩
    · rw [show pooledPicks (fun _ _ => (1:ℚ)/2) 0 [⟨some 50, some 50, some 50, 1⟩]
          = List.replicate (exSize 1) 50 by
        rw [pooledPicks, pooledPicks]
        rw [show expertTriple ⟨some 50, some 50, some 50, 1⟩ = some (50, 50, 50) by
          simp [expertTriple, sort3_diag]]
        simp [pert_dist]]
      intro hcon
      have hlen := congrArg List.length hcon
      rw [List.length_replicate, List.length_nil] at hlen
      rw [show exSize 1 = 5000 by
        rw [exSize, show ⌊(1 : ℚ) * 5000⌋ = 5000 by norm_num]
        rfl] at hlen
      exact absurd hlen (by norm_num)
  · intro d hd
    refine c7_distribution_valid [⟨some 50, some 50, some 50, 1⟩] (fun _ _ => 1/2)
      ?_ ?_ d hd
    · intro e he v hv
      rw [List.mem_singleton] at he
      subst he
      rcases hv with hv | hv | hv <;>
      · rw [Option.some.injEq] at hv
        subst hv
        norm_num
    · intro i j
      norm_num

/-- C8 counterexample: a single expert with positive weight 1/10000 and
low = expected = upper = 50 yields `int(w * 5000) = 0` picks, so
`get_prob_dist` returns the undefined marker (`np.nan`, modelled `none`)
instead of a distribution with all mass at bucket round(50) — refuting the
claim for arbitrary positive weights. -/
theorem c8_small_weight_counterexample :
    (0 : ℚ) < 1/10000 ∧
    get_prob_dist [⟨some 50, some 50, some 50, 1/10000⟩] (fun _ _ => 0) = none := by
  constructor
  · norm_num
  · norm_num [get_prob_dist, pooledPicks, expertTriple, sort3, pert_dist, exSize]

/-- C8 (amended): for a single expert whose lower, expected and upper values
all equal the same percentage v ∈ [0, 100], and whose weight w satisfies
`int(w * 5000) ≥ 1` (in particular any weight ≥ 1/5000, hence every integer
weight ≥ 1), distribution synthesis returns the distribution whose whole
mass sits at bucket round(v) (numpy round, ties to even) and whose every
other bucket is 0. -/
theorem c8_constant_expert_mass (v w : ℚ) (betaDraw : ℕ → ℕ → ℚ) (h0 : 0 ≤ v) (h1 : v ≤ 100)
    (hw : 1 ≤ ⌊w * 5000⌋) :
    get_prob_dist [⟨some v, some v, some v, w⟩] betaDraw
      = some ((List.range 101).map
          (fun (i : ℕ) => if (i : ℤ) = roundHalfEven v then (1 : ℚ) else 0)) := by
  have hpool : pooledPicks betaDraw 0 [⟨some v, some v, some v, w⟩]
      = List.replicate (exSize w) v := by
    rw [pooledPicks, pooledPicks]
    rw [show expertTriple ⟨some v, some v, some v, w⟩ = some (v, v, v) by
      simp [expertTriple, sort3_diag]]
    simp [pert_dist]
  have hsz : exSize w ≠ 0 := by
    rw [exSize]
    omega
  have hne : List.replicate (exSize w) v ≠ [] := by
    intro hcon
    have := congrArg List.length hcon
    simp at this
    exact hsz this
  simp only [get_prob_dist, hpool]
  rw [if_neg hne, Option.some.injEq]
  rw [List.map_replicate]
  set k := roundHalfEven v with hkdef
  have hkb := roundHalfEven_bounds v h0 h1
  have hround : round2 (v / 100) = (k : ℚ) / 100 := by
    rw [round2, hkdef]
    congr 2
    rw [div_mul_cancel₀]
    norm_num
  simp only [get_dist_from_picks, List.map_replicate, hround]
  have hcounts : ∀ i : ℕ,
      ((List.countP (fun x => decide (x = (i : ℚ) / 100))
          (List.replicate (exSize w) ((k : ℚ) / 100)) : ℕ) : ℚ)
        = if (i : ℤ) = k then ((exSize w : ℕ) : ℚ) else 0 := by
    intro i
    rw [countP_replicate]
    by_cases hik : (i : ℤ) = k
    · rw [if_pos hik]
      rw [if_pos]
      rw [decide_eq_true_eq]
      congr 1
      exact_mod_cast hik.symm
    · rw [if_neg hik, if_neg]
      · simp
      · rw [decide_eq_true_eq]
        intro hq
        apply hik
        have : (k : ℚ) = (i : ℚ) := by
          field_simp at hq
          exact hq
        exact_mod_cast this.symm
  have hcmap : (List.range 101).map
      (fun (i : ℕ) => ((List.countP (fun x => decide (x = (i : ℚ) / 100))
          (List.replicate (exSize w) ((k : ℚ) / 100)) : ℕ) : ℚ))
      = (List.range 101).map
        (fun (i : ℕ) => if (i : ℤ) = k then ((exSize w : ℕ) : ℚ) else 0) :=
    List.map_congr_left (fun i _ => hcounts i)
  rw [hcmap]
  have hbucket : ∀ z ∈ List.replicate (exSize w) ((k : ℚ) / 100),
      ∃ m : ℕ, m ≤ 100 ∧ z = (m : ℚ) / 100 := by
    intro z hz
    rw [List.eq_of_mem_replicate hz]
    refine ⟨k.toNat, by omega, ?_⟩
    congr 1
    rw [show ((k.toNat : ℕ) : ℚ) = ((k.toNat : ℤ) : ℚ) by push_cast; ring]
    rw [Int.toNat_of_nonneg hkb.1]
  have htotal' := count_bucket_sum _ hbucket
  rw [hcmap] at htotal'
  rw [htotal']
  simp only [List.length_replicate]
  rw [List.map_map]
  apply List.map_congr_left
  intro i _
  simp only [Function.comp]
  by_cases hik : (i : ℤ) = k
  · rw [if_pos hik, if_pos hik, div_self (by exact_mod_cast hsz)]
  · rw [if_neg hik, if_neg hik, zero_div]

/-- C8 witness: v = 50, w = 1: all mass at bucket 50. -/
theorem c8_constant_expert_mass_witness :
    ((0 : ℚ) ≤ 50 ∧ (50 : ℚ) ≤ 100 ∧ 1 ≤ ⌊(1 : ℚ) * 5000⌋) ∧
    get_prob_dist [⟨some 50, some 50, some 50, 1⟩] (fun _ _ => 0)
      = some ((List.range 101).map
          (fun (i : ℕ) => if (i : ℤ) = roundHalfEven 50 then (1 : ℚ) else 0)) := by
  refine ⟨⟨by norm_num, by norm_num, by norm_num⟩, ?_⟩
  exact c8_constant_expert_mass 50 1 (fun _ _ => 0) (by norm_num) (by norm_num) (by norm_num)

/-- C9: for every expert triple processed by `get_prob_dist` whose three
values are all non-missing (so `expertTriple` returns the sorted triple
(l, p, u)), `pert_dist` is safe: if l = u the triple is constant (p = l as
well, so the constant branch at `som_tools.py` 708-709 is taken and no Beta
parameters are computed), and otherwise high − low ≠ 0 and both Beta shape
parameters are ≥ 1 (in particular positive). -/
theorem c9_pert_parameters_safe (e : Expert) (l p u : ℚ)
    (h : expertTriple e = some (l, p, u)) :
    (l = u → p = l) ∧
    (¬(l = u ∧ l = p) → u - l ≠ 0 ∧ 1 ≤ pertAlpha p l u ∧ 1 ≤ pertBeta p l u) := by
  obtain ⟨eex, el, eu, ew⟩ := e
  cases el with
  | none => simp [expertTriple] at h
  | some l0 =>
    cases eex with
    | none => simp [expertTriple] at h
    | some e0 =>
      cases eu with
      | none => simp [expertTriple] at h
      | some u0 =>
        simp only [expertTriple, Option.some.injEq] at h
        have hs := sort3_sorted l0 e0 u0
        rw [h] at hs
        obtain ⟨h1, h2⟩ := hs
        have first : l = u → p = l := fun hlu => le_antisymm (hlu ▸ h2) h1
        refine ⟨first, fun hne => ?_⟩
        have hlu : l ≠ u := fun hq => hne ⟨hq, (first hq).symm⟩
        have hlt : l < u := lt_of_le_of_ne (le_trans h1 h2) hlu
        have hpos : 0 < u - l := by linarith
        refine ⟨ne_of_gt hpos, ?_, ?_⟩
        · rw [pertAlpha]
          have hnum : (0:ℚ) ≤ 4 * (p - l) := by linarith
          have : 0 ≤ 4 * (p - l) / (u - l) := div_nonneg hnum (le_of_lt hpos)
          linarith
        · rw [pertBeta]
          have hnum : (0:ℚ) ≤ 4 * (u - p) := by linarith
          have : 0 ≤ 4 * (u - p) / (u - l) := div_nonneg hnum (le_of_lt hpos)
          linarith

/-- C9 witness: the malformed triple (expected 1, lower 0, upper 3) sorts to
(0, 1, 3) and yields Beta parameters ≥ 1. -/
theorem c9_pert_parameters_safe_witness :
    expertTriple ⟨some 1, some 0, some 3, 1⟩ = some (0, 1, 3) ∧
    (((0 : ℚ) = 3 → (1 : ℚ) = 0) ∧
      (¬((0 : ℚ) = 3 ∧ (0 : ℚ) = 1) →
        (3 : ℚ) - 0 ≠ 0 ∧ 1 ≤ pertAlpha 1 0 3 ∧ 1 ≤ pertBeta 1 0 3)) := by
  have h : expertTriple ⟨some 1, some 0, some 3, 1⟩ = some (0, 1, 3) := by
    norm_num [expertTriple, sort3]
  exact ⟨h, c9_pert_parameters_safe ⟨some 1, some 0, some 3, 1⟩ 0 1 3 h⟩

/-- C10: (i) the output tables of `build_changes` carry one column per
distinct area of the expanded case table (`cases['area_id'].unique()`,
`som_app.py` 242), i.e. the column list contains exactly the areas occurring
in some case row; (ii) frame property: a PressureLevel cell (pressure p,
area a) that no case row touches (no row with that area and that pressure)
still equals exactly 1.0 at the end of the simulation, for any number of
time steps. -/
theorem c10_frame_untouched_pressures (pressures states : List ℤ)
    (cases : List CaseRow) (links : List Link) (acs : List ActContrib)
    (pcs : List PressContrib) (overlaps : List OverlapRow)
    (subs : List SubpressureRow) (timeSteps : ℕ) (p a : ℤ)
    (h : ∀ m ∈ cases, ¬(m.area_id = a ∧ m.pressure = p)) :
    (build_changes pressures states cases links acs pcs overlaps subs
      timeSteps).pressureLevels p a = 1 ∧
    ∀ x : ℤ, x ∈ uniqueKeepFirst (cases.map (fun m => m.area_id)) ↔
      ∃ m ∈ cases, m.area_id = x := by
  constructor
  · rw [build_changes]
    refine foldl_inv (fun x : SimState => x.pressureLevels p a = 1) _ _ _ rfl ?_
    intro s1 _ _ hs1
    rw [timeStep, step3_pressureLevels, step2_pressureLevels]
    exact step1_frame _ _ _ _ _ _ _ _ h hs1
  · intro x
    rw [mem_uniqueKeepFirst, List.mem_map]

/-- C10 witness: pressure 99 is listed but untouched by the single case
(which is about pressure 20), so its level stays exactly 1. -/
theorem c10_frame_untouched_pressures_witness :
    (∀ m ∈ ([⟨1, 10, 20, 30, 1, 1, 1⟩] : List CaseRow),
      ¬(m.area_id = 1 ∧ m.pressure = 99)) ∧
    (build_changes [20, 99] [30] [⟨1, 10, 20, 30, 1, 1, 1⟩] [] [] [] [] []
      1).pressureLevels 99 1 = 1 ∧
    ∀ x : ℤ, x ∈ uniqueKeepFirst (([⟨1, 10, 20, 30, 1, 1, 1⟩] : List CaseRow).map
      (fun m => m.area_id)) ↔ ∃ m ∈ ([⟨1, 10, 20, 30, 1, 1, 1⟩] : List CaseRow),
        m.area_id = x := by
  have h : ∀ m ∈ ([⟨1, 10, 20, 30, 1, 1, 1⟩] : List CaseRow),
      ¬(m.area_id = 1 ∧ m.pressure = 99) := by
    intro m hm
    rw [List.mem_singleton] at hm
    subst hm
    simp
  have hc := c10_frame_untouched_pressures [20, 99] [30] [⟨1, 10, 20, 30, 1, 1, 1⟩]
    [] [] [] [] [] 1 99 1 h
  exact ⟨h, hc.1, hc.2⟩


end SOM
